import Mathlib

/-!
Verification of the campaign-expansion / brand-campaign planning pipeline of
the `search-ads-cli` repository (packages `asa_api_cli` / `search_ads_cli`).

Strings of the Python source are modelled as `List Char` (`Str`); Python
`Decimal` arithmetic is modelled exactly over `ℚ` (the bid values handled by
the tool are small fixed-point amounts, far below the 28-significant-digit
context of `decimal`, so `Decimal` sums, quotients and `round(_, 2)` agree
with exact rational arithmetic followed by half-even rounding).  Fallible
code is modelled with `Option` / `Except`; the external API client is a
parameter (an environment of per-call outcomes).
-/

namespace SearchAdsCli

/-- Strings are modelled as lists of characters. -/
abbrev Str := List Char

/-- Coerce a Lean string literal into the model. -/
def str (s : String) : Str := s.toList

/-! ## Python string primitives used by the source -/

/-- Python `str.upper` (ASCII model, one char at a time). -/
def pyUpper (s : Str) : Str := s.map Char.toUpper

/-- Python `str.lower` (ASCII model, one char at a time). -/
def pyLower (s : Str) : Str := s.map Char.toLower

/-- Drop leading whitespace (helper for `pyStrip`). -/
def dropSpaceLeft : Str → Str
  | [] => []
  | c :: rest => if c.isWhitespace then dropSpaceLeft rest else c :: rest

/-- Python `str.strip()`: remove whitespace from both ends. -/
def pyStrip (s : Str) : Str := ((dropSpaceLeft ((dropSpaceLeft s).reverse)).reverse)

/-- Python `str.title()` helper: `prevCased` records whether the previous
character was a letter. -/
def pyTitleAux : Bool → Str → Str
  | _, [] => []
  | prevCased, c :: rest =>
      if c.isAlpha then
        (if prevCased then c.toLower else c.toUpper) :: pyTitleAux true rest
      else
        c :: pyTitleAux false rest

/-- Python `str.title()` (ASCII model). -/
def pyTitle (s : Str) : Str := pyTitleAux false s

/-- The `" - "` separator used by the campaign-name convention. -/
def sepL : Str := [' ', '-', ' ']

/-- First occurrence of `" - "` in a string: `some (before, after)` when the
separator occurs, `none` otherwise.  Mirrors the scan of Python's
`str.split(" - ")`. -/
def findSep : Str → Option (Str × Str)
  | [] => none
  | c :: rest =>
      if sepL.isPrefixOf (c :: rest) then some ([], rest.drop 2)
      else (findSep rest).map (fun p => (c :: p.1, p.2))

theorem findSep_some_length {s before after : Str}
    (h : findSep s = some (before, after)) : after.length < s.length := by
  induction s generalizing before after with
  | nil => simp [findSep] at h
  | cons c rest ih =>
    simp only [findSep] at h
    split at h
    · injection h with h
      injection h with h1 h2
      subst h2
      simp only [List.length_cons, List.length_drop]
      omega
    · cases hf : findSep rest with
      | none => simp [hf] at h
      | some p =>
        obtain ⟨l, r⟩ := p
        rw [hf] at h
        simp only [Option.map] at h
        injection h with h
        injection h with h1 h2
        subst h2
        have := ih hf
        simp only [List.length_cons]
        omega

/-- Fuel-indexed splitter (structural recursion, so that it reduces in the
kernel); with fuel at least `s.length` it computes the full split. -/
def splitDashFuel : ℕ → Str → List Str
  | 0, s => [s]
  | fuel + 1, s =>
      match findSep s with
      | some (before, after) => before :: splitDashFuel fuel after
      | none => [s]

/-- Python `name.split(" - ")` on the character-list model: split at each
non-overlapping occurrence of the separator, scanning left to right. -/
def splitDash (s : Str) : List Str := splitDashFuel s.length s

theorem splitDashFuel_congr :
    ∀ (fuel₁ fuel₂ : ℕ) (s : Str), s.length ≤ fuel₁ → s.length ≤ fuel₂ →
      splitDashFuel fuel₁ s = splitDashFuel fuel₂ s := by
  intro fuel₁
  induction fuel₁ with
  | zero =>
    intro fuel₂ s h1 _
    have hs : s = [] := List.eq_nil_of_length_eq_zero (Nat.le_zero.mp h1)
    subst hs
    cases fuel₂ with
    | zero => rfl
    | succ g => simp [splitDashFuel, findSep]
  | succ f ih =>
    intro fuel₂ s h1 h2
    cases fuel₂ with
    | zero =>
      have hs : s = [] := List.eq_nil_of_length_eq_zero (Nat.le_zero.mp h2)
      subst hs
      simp [splitDashFuel, findSep]
    | succ g =>
      simp only [splitDashFuel]
      cases hf : findSep s with
      | none => rfl
      | some p =>
        obtain ⟨before, after⟩ := p
        have hlt := findSep_some_length hf
        show before :: splitDashFuel f after = before :: splitDashFuel g after
        rw [ih g after (by omega) (by omega)]

/-- One-step unfolding of `splitDash` in terms of `findSep`. -/
theorem splitDash_unfold (s : Str) :
    splitDash s =
      match findSep s with
      | some (before, after) => before :: splitDash after
      | none => [s] := by
  unfold splitDash
  cases hn : s.length with
  | zero =>
    have hs : s = [] := List.eq_nil_of_length_eq_zero hn
    subst hs
    simp [splitDashFuel, findSep]
  | succ n =>
    simp only [splitDashFuel]
    cases hf : findSep s with
    | none => rfl
    | some p =>
      obtain ⟨before, after⟩ := p
      have hlt := findSep_some_length hf
      show before :: splitDashFuel n after = before :: splitDash after
      unfold splitDash
      rw [splitDashFuel_congr n after.length after (by omega) (by omega)]

theorem findSep_append {a : Str} (b : Str) (ha : '-' ∉ a) :
    findSep (a ++ sepL ++ b) = some (a, b) := by
  induction a with
  | nil =>
    show findSep (' ' :: '-' :: ' ' :: b) = some ([], b)
    simp [findSep, sepL, List.isPrefixOf]
  | cons c a' ih =>
    have ha' : '-' ∉ a' := fun h => ha (List.mem_cons_of_mem _ h)
    rw [List.cons_append, List.cons_append, findSep]
    have hpre : sepL.isPrefixOf (c :: (a' ++ sepL ++ b)) = false := by
      cases a' with
      | nil => simp [sepL, List.isPrefixOf]
      | cons d a'' =>
        have hd : d ≠ '-' := fun h => ha (by simp [h])
        have hd2 : ('-' == d) = false := beq_eq_false_iff_ne.mpr (Ne.symm hd)
        simp [sepL, List.isPrefixOf, hd2]
    simp only [hpre, Bool.false_eq_true, if_false, ih ha', Option.map_some']

theorem findSep_eq_none {a : Str} (ha : '-' ∉ a) : findSep a = none := by
  induction a with
  | nil => rfl
  | cons c a' ih =>
    have ha' : '-' ∉ a' := fun h => ha (List.mem_cons_of_mem _ h)
    rw [findSep]
    have hpre : sepL.isPrefixOf (c :: a') = false := by
      cases a' with
      | nil => simp [sepL, List.isPrefixOf]
      | cons d a'' =>
        have hd : d ≠ '-' := fun h => ha (by simp [h])
        have hd2 : ('-' == d) = false := beq_eq_false_iff_ne.mpr (Ne.symm hd)
        simp [sepL, List.isPrefixOf, hd2]
    simp only [hpre, Bool.false_eq_true, if_false, ih ha', Option.map_none']

theorem splitDash_append {a : Str} (b : Str) (ha : '-' ∉ a) :
    splitDash (a ++ sepL ++ b) = a :: splitDash b := by
  rw [splitDash_unfold, findSep_append b ha]

theorem splitDash_of_no_dash {a : Str} (ha : '-' ∉ a) : splitDash a = [a] := by
  rw [splitDash_unfold, findSep_eq_none ha]

example : splitDash (str "A - US - Generic - EM") =
    [str "A", str "US", str "Generic", str "EM"] := by decide

example : splitDash (str "abc") = [str "abc"] := by decide

/-- Python `s.split(",")` on the character-list model. -/
def splitComma : Str → List Str
  | [] => [[]]
  | c :: rest =>
      if c = ',' then [] :: splitComma rest
      else
        match splitComma rest with
        | [] => [[c]]
        | s :: ss => (c :: s) :: ss

/-! ## Name Parser (`optimize.py`, `CampaignNameParts`) -/

/-- Parsed campaign name parts (`optimize.py` lines 378-386). -/
structure CampaignNameParts where
  app_name : Str
  country : Str
  campaign_type : Str
  match_type : Str
  original : Str
deriving DecidableEq, Repr

/-- The two spellings normalised to `"EM"` by `parse`. -/
def emTokens : List Str := [str "EM", str "EXACT MATCH"]

/-- The four spellings normalised to `"BM"` by `parse`. -/
def bmTokens : List Str := [str "BM", str "BROAD MATCH", str "SM", str "SEARCH MATCH"]

/-- `CampaignNameParts.parse` (`optimize.py` lines 388-424): split the name on
`" - "`, strip each part, require at least 4 parts, normalise the last part's
upper-cased spelling to `"EM"`/`"BM"` (returning `none` on an unknown token),
and read `app_name`, `country` (upper-cased) and `campaign_type` from
`parts[0]`, `parts[1]` and `parts[-2]`. -/
def nameParts (name : Str) : List Str := (splitDash name).map pyStrip

/-- The parsed fields other than the match type: `app_name = parts[0]`,
`country = parts[1].upper()`, `campaign_type = parts[-2]`. -/
def partsFields (name : Str) (mt : Str) : CampaignNameParts :=
  ⟨(nameParts name).getD 0 [], pyUpper ((nameParts name).getD 1 []),
   (nameParts name).getD ((nameParts name).length - 2) [], mt, name⟩

def parseName (name : Str) : Option CampaignNameParts :=
  if (nameParts name).length < 4 then none
  else if pyUpper ((nameParts name).getLastD []) ∈ emTokens then
    some (partsFields name (str "EM"))
  else if pyUpper ((nameParts name).getLastD []) ∈ bmTokens then
    some (partsFields name (str "BM"))
  else none

/-- `CampaignNameParts.with_country` (`optimize.py` lines 426-429): rebuild
the name with a new country, always spelling the match type in long form. -/
def withCountry (x : CampaignNameParts) (newCountry : Str) : Str :=
  let matchTypeFull := if x.match_type = str "EM" then str "Exact Match" else str "Broad Match"
  x.app_name ++ sepL ++ newCountry ++ sepL ++ x.campaign_type ++ sepL ++ matchTypeFull

example : parseName (str "Chippy Tools - US - Generic - Exact Match") =
    some ⟨str "Chippy Tools", str "US", str "Generic", str "EM",
          str "Chippy Tools - US - Generic - Exact Match"⟩ := by decide

example : parseName (str "Concrete Tools - AU - Competitor - EM") =
    some ⟨str "Concrete Tools", str "AU", str "Competitor", str "EM",
          str "Concrete Tools - AU - Competitor - EM"⟩ := by decide

example : parseName (str "A - B - C") = none := by decide

example : parseName (str "A - B - C - D") = none := by decide

example : parseName (str "A - au - c - sm") =
    some ⟨str "A", str "AU", str "c", str "BM", str "A - au - c - sm"⟩ := by decide

example : withCountry ⟨str "Chippy Tools", str "US", str "Generic", str "EM", str ""⟩ (str "CA") =
    str "Chippy Tools - CA - Generic - Exact Match" := by decide

/-- Evaluate `parseName` on a name splitting as `[a, c, t, "Exact Match"]`. -/
theorem parseName_four_em (a c t name : Str)
    (hsplit : splitDash name = [a, c, t, str "Exact Match"]) :
    parseName name = some ⟨pyStrip a, pyUpper (pyStrip c), pyStrip t, str "EM", name⟩ := by
  have h1 : pyStrip (str "Exact Match") = str "Exact Match" := by decide
  have h2 : pyUpper (str "Exact Match") = str "EXACT MATCH" := by decide
  have h3 : str "EXACT MATCH" ∈ emTokens := by decide
  have hp : nameParts name = [pyStrip a, pyStrip c, pyStrip t, str "Exact Match"] := by
    unfold nameParts
    rw [hsplit]
    simp [h1]
  unfold parseName partsFields
  rw [hp]
  simp [List.getD, List.getLastD, h2, h3]

/-- Evaluate `parseName` on a name splitting as `[a, c, t, "Broad Match"]`. -/
theorem parseName_four_bm (a c t name : Str)
    (hsplit : splitDash name = [a, c, t, str "Broad Match"]) :
    parseName name = some ⟨pyStrip a, pyUpper (pyStrip c), pyStrip t, str "BM", name⟩ := by
  have h1 : pyStrip (str "Broad Match") = str "Broad Match" := by decide
  have h2 : pyUpper (str "Broad Match") = str "BROAD MATCH" := by decide
  have h3 : str "BROAD MATCH" ∉ emTokens := by decide
  have h4 : str "BROAD MATCH" ∈ bmTokens := by decide
  have hp : nameParts name = [pyStrip a, pyStrip c, pyStrip t, str "Broad Match"] := by
    unfold nameParts
    rw [hsplit]
    simp [h1]
  unfold parseName partsFields
  rw [hp]
  simp [List.getD, List.getLastD, h2, h3, h4]

/-! ## Keyword aggregator and plan builder (`optimize.py`, `expand_campaign`) -/

/-- Half-even ("banker's") rounding to an integer, the rounding used by
Python's `round` on `Decimal` values (context rounding `ROUND_HALF_EVEN`). -/
def roundHalfEven (q : ℚ) : ℤ :=
  let f := ⌊q⌋
  let frac := q - f
  if frac < 1 / 2 then f
  else if frac > 1 / 2 then f + 1
  else if f % 2 = 0 then f else f + 1

/-- Python `round(x, 2)` on a `Decimal`, modelled exactly over `ℚ`. -/
def round2 (q : ℚ) : ℚ := (roundHalfEven (q * 100) : ℚ) / 100

/-- The aggregator's bid for a keyword (`optimize.py` lines 728-733):
`avg_bid = Decimal(sum(bids) / len(bids))`, then `round(avg_bid, 2)`. -/
def computedBid (bids : List ℚ) : ℚ := round2 (bids.sum / (bids.length : ℚ))

/-- Planned keyword for the new campaign (`optimize.py` lines 345-354). -/
structure KeywordPlan where
  text : Str
  bid : ℚ
  currency : Str
  source_count : ℕ
  impressions : ℤ
  source_bids : List ℚ
deriving DecidableEq, Repr

/-- Planned ad group (`optimize.py` lines 357-363). -/
structure AdGroupPlan where
  name : Str
  keyword : KeywordPlan
  negatives : List Str
deriving DecidableEq, Repr

/-- Ad-group name built by `expand_campaign` (`optimize.py` lines 775-778):
`"Exact - {keyword title case}"`, truncated to its first 197 characters plus
`"..."` when longer than 200 characters. -/
def mkAgNameExpand (text : Str) : Str :=
  if (str "Exact - " ++ pyTitle text).length > 200
  then (str "Exact - " ++ pyTitle text).take 197 ++ str "..."
  else str "Exact - " ++ pyTitle text

/-- Ad-group name built by `create_brand_campaigns` (`brand.py` line 767):
`f"Exact - {keyword.title()}"[:200]` — a plain slice to 200 characters. -/
def mkAgNameBrand (text : Str) : Str :=
  (str "Exact - " ++ pyTitle text).take 200

/-- The SKAG ad-group plans built by `expand_campaign` (`optimize.py` lines
770-789): one ad group per keyword plan, with every *other* keyword text as a
cross-negative unless `--skip-negatives` was given. -/
def buildAdGroupPlans (keywordPlans : List KeywordPlan) (skipNegatives : Bool) :
    List AdGroupPlan :=
  let allKeywords := keywordPlans.map KeywordPlan.text
  keywordPlans.map fun kp =>
    { name := mkAgNameExpand kp.text
      keyword := kp
      negatives :=
        if skipNegatives then [] else allKeywords.filter (fun k => k ≠ kp.text) }

/-- One row of the keyword performance report consumed by the aggregator
(`optimize.py` lines 698-709): the keyword metadata (`None` or a string), the
truthiness of `row.total`, the impression count, and the optional bid. -/
structure ReportRow where
  keyword : Option Str
  hasTotal : Bool
  impressions : ℤ
  bidAmount : Option ℚ
deriving DecidableEq, Repr

/-- Python truthiness of `row.metadata.keyword`: a non-`None`, non-empty
string. -/
def truthyKeyword : Option Str → Option Str
  | some k => if k = [] then none else some k
  | none => none

/-- `keyword_impressions[kw] += impressions` on an insertion-ordered map
(Python `defaultdict(int)` behaviour). -/
def updImpr : List (Str × ℤ) → Str → ℤ → List (Str × ℤ)
  | [], k, v => [(k, v)]
  | (k', v') :: rest, k, v =>
      if k' = k then (k', v' + v) :: rest else (k', v') :: updImpr rest k v

/-- `keyword_bids[kw].append(b)` on an insertion-ordered map (Python
`defaultdict(list)` behaviour). -/
def updBids : List (Str × List ℚ) → Str → ℚ → List (Str × List ℚ)
  | [], k, b => [(k, [b])]
  | (k', bs) :: rest, k, b =>
      if k' = k then (k', bs ++ [b]) :: rest else (k', bs) :: updBids rest k b

/-- Accumulation state: the `keyword_impressions` and `keyword_bids` maps. -/
abbrev AccState := List (Str × ℤ) × List (Str × List ℚ)

/-- Process one report row (`optimize.py` lines 698-709): rows with a truthy
keyword and a truthy total contribute their impressions (when positive) under
the lower-cased keyword text, and their bid when the metadata carries one. -/
def accumRow (st : AccState) (row : ReportRow) : AccState :=
  match truthyKeyword row.keyword, row.hasTotal with
  | some kw, true =>
      let kwText := pyLower kw
      if row.impressions > 0 then
        (updImpr st.1 kwText row.impressions,
         match row.bidAmount with
         | some b => updBids st.2 kwText b
         | none => st.2)
      else st
  | _, _ => st

/-- Accumulate all report rows of all source campaigns, in order. -/
def accumulate (rows : List ReportRow) : AccState := rows.foldl accumRow ([], [])

/-- `keyword_bids = {k: v for k, v in keyword_bids.items() if k in
active_keywords}` (`optimize.py` lines 715-717). -/
def filterActive (st : AccState) : List (Str × List ℚ) :=
  st.2.filter fun kv => decide (kv.1 ∈ st.1.map Prod.fst)

/-- The user-facing failure of the expand pipeline: `optimize.py` lines
719-721 print `"No keywords with impressions found in last 90 days"` and
raise `typer.Exit(1)` — a handled, user-facing exit (the spec's
`EmptyResultError`), distinct from an unhandled crash or an API error. -/
inductive ExpandFailure where
  | emptyResult
deriving DecidableEq, Repr

/-- The aggregation-and-filter step of `expand_campaign` (`optimize.py` lines
679-721): returns the filtered `keyword_bids` map, or the `emptyResult`
failure when it is empty. -/
def aggregateStep (rows : List ReportRow) : Except ExpandFailure (List (Str × List ℚ)) :=
  let kb := filterActive (accumulate rows)
  if kb = [] then .error .emptyResult else .ok kb

/-- The keyword plans built from the filtered map (`optimize.py` lines
727-739). -/
def mkKeywordPlans (currency : Str) (imprOf : Str → ℤ)
    (items : List (Str × List ℚ)) : List KeywordPlan :=
  items.map fun kv =>
    { text := kv.1
      bid := computedBid kv.2
      currency := currency
      source_count := kv.2.length
      impressions := imprOf kv.1
      source_bids := kv.2 }

/-! ## Visibility poll (`optimize.py`, `wait_for_resource`) -/

/-- Outcome of one call of the `check_fn` passed to `wait_for_resource`:
a value, a `NotFoundError`, or any other (non-retryable) error. -/
inductive CheckOutcome (T : Type) where
  | ok (t : T)
  | notFound
  | otherError
deriving DecidableEq, Repr

/-- Result of the poll, together with the number of calls made to the check
function. `success t n`: returned `t` after `n` calls; `notFoundFail n`:
raised `NotFoundError` after `n` calls; `otherFail n`: the `n`-th call raised
a non-`NotFoundError` error which propagated uncaught. -/
inductive PollResult (T : Type) where
  | success (t : T) (calls : ℕ)
  | notFoundFail (calls : ℕ)
  | otherFail (calls : ℕ)
deriving DecidableEq, Repr

/-- The loop body of `wait_for_resource` (`optimize.py` lines 64-73), from
loop index `attempt` on.  `check i` is the outcome of the `i`-th call
(0-based); the `time.sleep(delay)` between attempts has no observable effect
in this model.  Structured exactly as the source: a `NotFoundError` re-raises
on the last attempt and otherwise retries; other errors are not caught. -/
def waitLoop {T : Type} (check : ℕ → CheckOutcome T) (maxAttempts : ℕ) :
    ℕ → PollResult T
  | attempt =>
    if h : attempt < maxAttempts then
      match check attempt with
      | .ok t => .success t (attempt + 1)
      | .otherError => .otherFail (attempt + 1)
      | .notFound =>
          if attempt < maxAttempts - 1 then waitLoop check maxAttempts (attempt + 1)
          else .notFoundFail (attempt + 1)
    else .notFoundFail attempt
termination_by attempt => maxAttempts - attempt
decreasing_by omega

/-- `wait_for_resource(check_fn, max_attempts, delay)` (`optimize.py` lines
46-73); the final unreachable `raise NotFoundError` (hit only when
`max_attempts == 0`) is the `else` branch of `waitLoop`. -/
def waitForResource {T : Type} (check : ℕ → CheckOutcome T) (maxAttempts : ℕ) :
    PollResult T :=
  waitLoop check maxAttempts 0

/-! ## Execution orchestrator (`optimize.py`, `expand_campaign` lines 888-942) -/

/-- Per-iteration outcomes of the external API client during the ad-group
loop: whether creating the `i`-th ad group raises, whether creating its
keyword raises, and the negative-keyword bulk create (`some n` = success
returning `n` created rows, `none` = `AppleSearchAdsError`). -/
structure ExecEnv where
  agOk : ℕ → Bool
  kwOk : ℕ → Bool
  negResult : ℕ → Option ℕ

/-- Counters kept by the loop (`created_ad_groups`, `created_keywords`,
`created_negatives`) plus the list of loop indices whose ad group was
successfully created. -/
structure ExecState where
  adGroups : ℕ
  keywords : ℕ
  negatives : ℕ
  createdIdx : List ℕ
deriving DecidableEq, Repr

/-- The initial counters. -/
def ExecState.init : ExecState := ⟨0, 0, 0, []⟩

/-- Negatives created at one loop iteration: nothing when the plan has no
negatives (`if ag_plan.negatives:`), the bulk-create row count on success,
and nothing when the `AppleSearchAdsError` is caught and skipped. -/
def negContribution (env : ExecEnv) (i : ℕ) (ag : AdGroupPlan) : ℕ :=
  if ag.negatives.isEmpty then 0
  else
    match env.negResult i with
    | some n => n
    | none => 0

/-- The ad-group creation loop (`optimize.py` lines 895-942), iteration index
`i`.  An error from the ad-group create or the keyword create propagates
(`.error`, carrying the state reached so far); an error from the
negative-keyword create is caught (`except AppleSearchAdsError: pass`) and
the loop continues; negatives are only attempted when the plan has any. -/
def execLoop (env : ExecEnv) : ℕ → List AdGroupPlan → ExecState → Except ExecState ExecState
  | _, [], st => .ok st
  | i, ag :: rest, st =>
      if env.agOk i = false then .error st
      else if env.kwOk i = false then
        .error ⟨st.adGroups + 1, st.keywords, st.negatives, st.createdIdx ++ [i]⟩
      else
        execLoop env (i + 1) rest
          ⟨st.adGroups + 1, st.keywords + 1,
           st.negatives + negContribution env i ag,
           st.createdIdx ++ [i]⟩

/-- Execute all ad-group plans of a campaign plan (the loop of
`optimize.py` line 895 started at its first iteration). -/
def execPlan (env : ExecEnv) (plans : List AdGroupPlan) : Except ExecState ExecState :=
  execLoop env 0 plans ExecState.init

/-- Total negatives created over a full successful pass: each ad group with a
non-empty negatives list contributes the bulk-create result size when that
call succeeds and nothing when it is caught and skipped. -/
def negSum (env : ExecEnv) : ℕ → List AdGroupPlan → ℕ
  | _, [] => 0
  | i, ag :: rest => negContribution env i ag + negSum env (i + 1) rest

/-! ## Bid-discrepancy scan (`optimize.py`, `bid-check`) -/

/-- `BidDiscrepancy` (`optimize.py` lines 76-96), with the display-only
name fields omitted. -/
structure BidDiscrepancy where
  campaign_id : ℤ
  ad_group_id : ℤ
  ad_group_bid : ℚ
  keyword_avg_bid : ℚ
  keyword_min_bid : ℚ
  keyword_max_bid : ℚ
  keyword_count : ℕ
deriving DecidableEq, Repr

/-- `BidDiscrepancy.difference_pct` (`optimize.py` lines 91-96): `0.0` when
the ad-group bid is zero, otherwise the percentage difference. -/
def BidDiscrepancy.difference_pct (d : BidDiscrepancy) : ℚ :=
  if d.ad_group_bid = 0 then 0
  else (d.keyword_avg_bid - d.ad_group_bid) / d.ad_group_bid * 100

/-- One enabled ad group as seen by the scan: its ids, default bid, and the
`bid_amount` of each of its keywords (`None` when a keyword has no bid). -/
structure AgRecord where
  campaignId : ℤ
  adGroupId : ℤ
  adGroupBid : ℚ
  keywordBids : List (Option ℚ)
deriving DecidableEq, Repr

/-- Scan one ad group (`optimize.py` lines 169-209): skip when it has no
keywords or no keyword bids; otherwise compute avg/min/max of the keyword
bids and record a `BidDiscrepancy` only when `ad_group_bid > 0` and the
difference percentage reaches the threshold. -/
def scanRecord (threshold : ℚ) (r : AgRecord) : Option BidDiscrepancy :=
  if r.keywordBids.isEmpty then none
  else
    match r.keywordBids.reduceOption with
    | [] => none
    | b :: bs =>
        if r.adGroupBid > 0 then
          if ((b :: bs).sum / ((b :: bs).length : ℚ) - r.adGroupBid) / r.adGroupBid * 100
              ≥ threshold then
            some ⟨r.campaignId, r.adGroupId, r.adGroupBid,
                  (b :: bs).sum / ((b :: bs).length : ℚ),
                  bs.foldl min b, bs.foldl max b, (b :: bs).length⟩
          else none
        else none

/-- The full scan: every enabled ad group of every enabled campaign, in
order. -/
def scanDiscrepancies (threshold : ℚ) (records : List AgRecord) : List BidDiscrepancy :=
  records.filterMap (scanRecord threshold)

/-! ## Brand campaigns: supported countries (`brand.py`) -/

/-- `ALL_COUNTRIES["africa_middle_east_india"]` (`brand.py` lines 45-65). -/
def countriesAfricaMiddleEastIndia : List Str :=
  [str "DZ", str "AM", str "BH", str "EG", str "GH", str "IN", str "IQ", str "IL",
   str "JO", str "KE", str "KW", str "LB", str "MA", str "OM", str "PK", str "QA",
   str "SA", str "ZA", str "AE"]

/-- `ALL_COUNTRIES["asia_pacific"]` (`brand.py` lines 67-86). -/
def countriesAsiaPacific : List Str :=
  [str "AU", str "KH", str "CN", str "HK", str "ID", str "JP", str "MO", str "MY",
   str "MN", str "NP", str "NZ", str "PH", str "SG", str "KR", str "LK", str "TW",
   str "TH", str "VN"]

/-- `ALL_COUNTRIES["europe"]` (`brand.py` lines 88-126). -/
def countriesEurope : List Str :=
  [str "AL", str "AT", str "AZ", str "BE", str "BG", str "HR", str "CY", str "CZ",
   str "DK", str "EE", str "FI", str "FR", str "DE", str "GR", str "HU", str "IS",
   str "IE", str "IT", str "KZ", str "KG", str "LV", str "LU", str "NL", str "NO",
   str "PL", str "PT", str "RO", str "RU", str "SK", str "SI", str "ES", str "SE",
   str "CH", str "TR", str "GB", str "UA", str "UZ"]

/-- `ALL_COUNTRIES["latin_america"]` (`brand.py` lines 128-144). -/
def countriesLatinAmerica : List Str :=
  [str "AR", str "BO", str "BR", str "CL", str "CO", str "CR", str "DO", str "EC",
   str "SV", str "GT", str "HN", str "MX", str "PA", str "PY", str "PE"]

/-- `ALL_COUNTRIES["north_america"]` (`brand.py` lines 146-149). -/
def countriesNorthAmerica : List Str := [str "CA", str "US"]

/-- The region lists in dict order (`brand.py` `ALL_COUNTRIES.values()`). -/
def allCountryRegions : List (List Str) :=
  [countriesAfricaMiddleEastIndia, countriesAsiaPacific, countriesEurope,
   countriesLatinAmerica, countriesNorthAmerica]

/-- `CHINA_COUNTRIES` (`brand.py` line 153). -/
def chinaCountries : List Str := [str "CN"]

/-- `get_all_countries(include_china)` (`brand.py` lines 165-180): every
region's codes in order, skipping `"CN"` unless `include_china`. -/
def getAllCountries (includeChina : Bool) : List Str :=
  allCountryRegions.flatten.filter fun code =>
    !(code == str "CN" && !includeChina)

/-- `COUNTRY_PRESETS["english"]` (`brand.py` line 157). -/
def presetEnglish : List Str :=
  [str "US", str "GB", str "CA", str "AU", str "NZ", str "IE"]

/-- `COUNTRY_PRESETS["tier1"]` (`brand.py` line 158). -/
def presetTier1 : List Str := [str "US", str "GB", str "CA", str "AU"]

/-- `COUNTRY_PRESETS["asia"]` (`brand.py` line 160): Asia Pacific without
China. -/
def presetAsia : List Str := countriesAsiaPacific.filter fun c => c ≠ str "CN"

/-- `COUNTRY_PRESETS` lookup by (lower-cased) key (`brand.py` lines 156-162). -/
def presetLookup (key : Str) : Option (List Str) :=
  if key = str "english" then some presetEnglish
  else if key = str "tier1" then some presetTier1
  else if key = str "europe" then some countriesEurope
  else if key = str "asia" then some presetAsia
  else if key = str "latam" then some countriesLatinAmerica
  else none

/-- The preset chosen by number in `_select_countries_interactive`
(`brand.py` lines 317-345): `presets_list` order is `all`, `english`,
`tier1`, `europe`, `asia`, `latam`. -/
def presetByIdx (idx : ℕ) (includeChina : Bool) : List Str :=
  if idx = 0 then getAllCountries includeChina
  else if idx = 1 then presetEnglish
  else if idx = 2 then presetTier1
  else if idx = 3 then countriesEurope
  else if idx = 4 then presetAsia
  else countriesLatinAmerica

/-- The comma-separated-codes branch of `_select_countries_interactive`
(`brand.py` lines 356-374): upper-case, remove spaces, split on commas, skip
empty and unknown codes, skip China without `include_china`, de-duplicate. -/
def commaPathCountries (selection : Str) (includeChina : Bool) : List Str :=
  (splitComma ((pyUpper selection).filter fun c => c ≠ ' ')).foldl
    (fun acc code =>
      if code = [] then acc
      else if code ∉ getAllCountries true then acc
      else if code ∈ chinaCountries ∧ includeChina = false then acc
      else if code ∈ acc then acc
      else acc ++ [code])
    []

/-- The non-numeric branches of `_select_countries_interactive` (`brand.py`
lines 349-374): the (already stripped) reply selects all countries, a preset
by name, or is parsed as comma-separated country codes. -/
def selectCountriesFallback (selection : Str) (includeChina : Bool) : List Str :=
  if pyLower selection = str "all" then getAllCountries includeChina
  else
    match presetLookup (pyLower selection) with
    | some cs => cs
    | none => commaPathCountries selection includeChina

/-- `_select_countries_interactive` (`brand.py` lines 298-374) as a function
of the prompt reply.  `intParse` models Python's `int(...)` (an arbitrary
parser, `none` = `ValueError`): a reply parsing to a number `1..6` selects a
preset and any other parse or number falls through to the name/codes
branches. -/
def selectCountriesInteractive (intParse : Str → Option ℤ)
    (reply : Str) (includeChina : Bool) : List Str :=
  match intParse (pyStrip reply) with
  | some n =>
      if 0 ≤ n - 1 ∧ n - 1 < 6 then presetByIdx (n - 1).toNat includeChina
      else selectCountriesFallback (pyStrip reply) includeChina
  | none => selectCountriesFallback (pyStrip reply) includeChina

/-- The `--country` argument path of `create_brand_campaigns` (`brand.py`
lines 578-589): upper-case each given code, skip unknown codes, skip China
without `--include-china`. -/
def brandTargetCountries (countries : List Str) (includeChina : Bool) : List Str :=
  countries.foldl
    (fun acc code =>
      if pyUpper code ∉ getAllCountries true then acc
      else if pyUpper code ∈ chinaCountries ∧ includeChina = false then acc
      else acc ++ [pyUpper code])
    []

/-! ## Claim theorems -/

/-- C2: for every non-empty list of bid values accumulated for a keyword,
the aggregator's computed bid equals the arithmetic mean `sum/len` rounded to
2 decimal places (half-even, as Python's `round` on `Decimal`), and the
computed bid is unchanged under any permutation of the input list. -/
theorem claim_C2 (bids : List ℚ) (h : bids ≠ []) :
    computedBid bids = round2 (bids.sum / (bids.length : ℚ))
    ∧ ∀ bids' : List ℚ, bids.Perm bids' → computedBid bids = computedBid bids' := by
  refine ⟨rfl, ?_⟩
  intro bids' hp
  unfold computedBid
  rw [hp.sum_eq, hp.length_eq]

theorem claim_C2_witness :
    computedBid [(1 : ℚ), 2] = round2 (([(1 : ℚ), 2].sum) / (([(1 : ℚ), 2].length : ℚ)))
    ∧ computedBid [(1 : ℚ), 2] = computedBid [(2 : ℚ), 1] :=
  ⟨(claim_C2 [1, 2] (by decide)).1,
   (claim_C2 [1, 2] (by decide)).2 [2, 1] (by decide)⟩

/-- C9: `difference_pct` is total — it returns `0` whenever `ad_group_bid`
is zero (without dividing), and every `BidDiscrepancy` recorded by the
bid-check scan has `ad_group_bid > 0`, so the zero branch is unreachable for
recorded discrepancies. -/
theorem claim_C9 :
    (∀ d : BidDiscrepancy, d.ad_group_bid = 0 → d.difference_pct = 0)
    ∧ ∀ (threshold : ℚ) (records : List AgRecord) (d : BidDiscrepancy),
        d ∈ scanDiscrepancies threshold records → 0 < d.ad_group_bid := by
  constructor
  · intro d h
    simp [BidDiscrepancy.difference_pct, h]
  · intro threshold records d hd
    simp only [scanDiscrepancies, List.mem_filterMap] at hd
    obtain ⟨r, _, hr⟩ := hd
    unfold scanRecord at hr
    split at hr
    · simp at hr
    · split at hr
      next => simp at hr
      next b bs heq =>
        split at hr
        next hpos =>
          split at hr
          next =>
            injection hr with hr
            subst hr
            exact hpos
          next => simp at hr
        next => simp at hr

theorem claim_C9_witness :
    (⟨1, 2, 0, 3, 1, 5, 2⟩ : BidDiscrepancy).difference_pct = 0
    ∧ 0 < (⟨1, 2, 1, 2, 2, 2, 1⟩ : BidDiscrepancy).ad_group_bid :=
  ⟨claim_C9.1 ⟨1, 2, 0, 3, 1, 5, 2⟩ (by norm_num),
   claim_C9.2 20 [⟨1, 2, 1, [some 2]⟩] ⟨1, 2, 1, 2, 2, 2, 1⟩
     (by norm_num [scanDiscrepancies, scanRecord, List.reduceOption_cons_of_some,
                   List.reduceOption_nil])⟩

/-- C8: when, after accumulation and filtering, the aggregated bid map is
empty, the expand pipeline fails with the `emptyResult` failure — the
user-facing "nothing to expand" exit (`print_error` + `typer.Exit(1)`, the
spec's `EmptyResultError`), not a crash; otherwise it proceeds with the
non-empty map.  In particular this happens whenever no report row carries
positive impressions. -/
theorem claim_C8 (rows : List ReportRow) :
    (filterActive (accumulate rows) = [] → aggregateStep rows = .error .emptyResult)
    ∧ (filterActive (accumulate rows) ≠ [] →
        aggregateStep rows = .ok (filterActive (accumulate rows)))
    ∧ ((∀ row ∈ rows, row.impressions ≤ 0) → aggregateStep rows = .error .emptyResult) := by
  refine ⟨?_, ?_, ?_⟩
  · intro h
    simp [aggregateStep, h]
  · intro h
    simp [aggregateStep, h]
  · intro h
    have hacc : ∀ (l : List ReportRow) (st : AccState),
        (∀ row ∈ l, row.impressions ≤ 0) → l.foldl accumRow st = st := by
      intro l
      induction l with
      | nil => intro st _; rfl
      | cons row rest ih =>
          intro st hle
          have hrow : accumRow st row = st := by
            unfold accumRow
            split
            · have : ¬ row.impressions > 0 := by
                have := hle row (List.mem_cons_self ..)
                omega
              simp [this]
            · rfl
          rw [List.foldl_cons, hrow]
          exact ih st fun r hr => hle r (List.mem_cons_of_mem _ hr)
    have : accumulate rows = ([], []) := hacc rows ([], []) h
    simp [aggregateStep, this, filterActive]

theorem claim_C8_witness :
    aggregateStep [⟨some (str "todo"), true, 0, some 1⟩] = .error .emptyResult :=
  (claim_C8 [⟨some (str "todo"), true, 0, some 1⟩]).2.2 (by decide)

/-- C7: `parse` returns `none` exactly when the split on `" - "` yields
fewer than 4 segments or the last (stripped) segment upper-cased is none of
the six match-type tokens; otherwise it returns parts whose `match_type` is
`"EM"` for the first two tokens and `"BM"` for the latter four.  `parse`
never raises: it is total by construction (`Str → Option CampaignNameParts`),
every operation it performs being total. -/
theorem claim_C7 (name : Str) :
    (parseName name = none ↔
      (nameParts name).length < 4
      ∨ pyUpper ((nameParts name).getLastD []) ∉ emTokens ++ bmTokens)
    ∧ ∀ p, parseName name = some p →
        p.match_type =
          (if pyUpper ((nameParts name).getLastD []) ∈ emTokens
           then str "EM" else str "BM") := by
  unfold parseName
  by_cases h4 : (nameParts name).length < 4
  · rw [if_pos h4]
    refine ⟨iff_of_true rfl (Or.inl h4), fun p hp => absurd hp (by simp)⟩
  · rw [if_neg h4]
    by_cases hem : pyUpper ((nameParts name).getLastD []) ∈ emTokens
    · rw [if_pos hem]
      refine ⟨?_, ?_⟩
      · refine iff_of_false (by simp) ?_
        intro hor
        rcases hor with h | h
        · exact h4 h
        · exact h (List.mem_append_left _ hem)
      · intro p hp
        injection hp with hp
        rw [if_pos hem, ← hp]
        rfl
    · rw [if_neg hem]
      by_cases hbm : pyUpper ((nameParts name).getLastD []) ∈ bmTokens
      · rw [if_pos hbm]
        refine ⟨?_, ?_⟩
        · refine iff_of_false (by simp) ?_
          intro hor
          rcases hor with h | h
          · exact h4 h
          · exact h (List.mem_append_right _ hbm)
        · intro p hp
          injection hp with hp
          rw [if_neg hem, ← hp]
          rfl
      · rw [if_neg hbm]
        refine ⟨?_, fun p hp => absurd hp (by simp)⟩
        refine iff_of_true rfl (Or.inr ?_)
        intro hmem
        exact (List.mem_append.mp hmem).elim (fun hh => hem hh) (fun hh => hbm hh)

theorem claim_C7_witness :
    (⟨str "A", str "US", str "Generic", str "EM", str "A - US - Generic - EM"⟩ :
        CampaignNameParts).match_type =
      (if pyUpper ((nameParts (str "A - US - Generic - EM")).getLastD [])
          ∈ emTokens then str "EM" else str "BM") :=
  (claim_C7 (str "A - US - Generic - EM")).2
    ⟨str "A", str "US", str "Generic", str "EM", str "A - US - Generic - EM"⟩ (by decide)

theorem waitLoop_step {T : Type} (check : ℕ → CheckOutcome T) (maxAttempts attempt : ℕ)
    (hlt : attempt + 1 < maxAttempts) (hnf : check attempt = .notFound) :
    waitLoop check maxAttempts attempt = waitLoop check maxAttempts (attempt + 1) := by
  rw [waitLoop]
  rw [dif_pos (show attempt < maxAttempts by omega)]
  rw [hnf]
  show (if attempt < maxAttempts - 1 then waitLoop check maxAttempts (attempt + 1)
        else PollResult.notFoundFail (attempt + 1)) = _
  rw [if_pos (show attempt < maxAttempts - 1 by omega)]

theorem waitLoop_skip {T : Type} (check : ℕ → CheckOutcome T) (maxAttempts : ℕ) :
    ∀ (n a : ℕ), a + n < maxAttempts →
      (∀ i, a ≤ i → i < a + n → check i = .notFound) →
      waitLoop check maxAttempts a = waitLoop check maxAttempts (a + n) := by
  intro n
  induction n with
  | zero => intro a _ _; rfl
  | succ m ih =>
      intro a hlt hnf
      rw [waitLoop_step check maxAttempts a (by omega) (hnf a le_rfl (by omega))]
      rw [ih (a + 1) (by omega) (fun i h1 h2 => hnf i (by omega) (by omega))]
      congr 1
      omega

theorem waitLoop_ok {T : Type} (check : ℕ → CheckOutcome T) (maxAttempts k : ℕ) (t : T)
    (hk : k < maxAttempts) (hok : check k = .ok t) :
    waitLoop check maxAttempts k = .success t (k + 1) := by
  rw [waitLoop, dif_pos hk, hok]

theorem waitLoop_other {T : Type} (check : ℕ → CheckOutcome T) (maxAttempts k : ℕ)
    (hk : k < maxAttempts) (hother : check k = .otherError) :
    waitLoop check maxAttempts k = .otherFail (k + 1) := by
  rw [waitLoop, dif_pos hk, hother]

theorem waitLoop_last_notFound {T : Type} (check : ℕ → CheckOutcome T) (maxAttempts : ℕ)
    (hpos : 0 < maxAttempts) (hnf : check (maxAttempts - 1) = .notFound) :
    waitLoop check maxAttempts (maxAttempts - 1) = .notFoundFail maxAttempts := by
  rw [waitLoop, dif_pos (show maxAttempts - 1 < maxAttempts by omega), hnf]
  show (if maxAttempts - 1 < maxAttempts - 1 then _ else PollResult.notFoundFail (maxAttempts - 1 + 1)) = _
  rw [if_neg (by omega)]
  congr 1
  omega

/-- C4: with `max_attempts = 10`, if the check function raises "not found" on
its first `k < 10` calls and succeeds on call `k+1`, `wait_for_resource`
returns that success after exactly `k+1` calls; if every call raises "not
found" it raises (the re-raised `NotFoundError`) after exactly 10 calls; and
an error other than "not found" on call `j+1` (after `j` "not found" calls)
propagates immediately, after exactly `j+1` calls.  The fixed 0.5s sleep has
no observable effect in the model. -/
theorem claim_C4 {T : Type} (check : ℕ → CheckOutcome T) :
    (∀ (k : ℕ) (t : T), k < 10 → (∀ i, i < k → check i = .notFound) → check k = .ok t →
        waitForResource check 10 = .success t (k + 1))
    ∧ ((∀ i, i < 10 → check i = .notFound) → waitForResource check 10 = .notFoundFail 10)
    ∧ (∀ j : ℕ, j < 10 → (∀ i, i < j → check i = .notFound) → check j = .otherError →
        waitForResource check 10 = .otherFail (j + 1)) := by
  refine ⟨?_, ?_, ?_⟩
  · intro k t hk hnf hok
    unfold waitForResource
    have hskip := waitLoop_skip check 10 k 0 (by omega) (fun i h1 h2 => hnf i (by omega))
    rw [Nat.zero_add] at hskip
    rw [hskip]
    exact waitLoop_ok check 10 k t hk hok
  · intro hnf
    unfold waitForResource
    have hskip := waitLoop_skip check 10 9 0 (by omega) (fun i h1 h2 => hnf i (by omega))
    rw [Nat.zero_add] at hskip
    rw [hskip]
    exact waitLoop_last_notFound check 10 (by omega) (hnf 9 (by omega))
  · intro j hj hnf hother
    unfold waitForResource
    have hskip := waitLoop_skip check 10 j 0 (by omega) (fun i h1 h2 => hnf i (by omega))
    rw [Nat.zero_add] at hskip
    rw [hskip]
    exact waitLoop_other check 10 j hj hother

theorem claim_C4_witness :
    waitForResource (fun i => if i < 2 then CheckOutcome.notFound else CheckOutcome.ok 7) 10
        = PollResult.success 7 3
    ∧ waitForResource (fun _ => (CheckOutcome.notFound : CheckOutcome ℕ)) 10
        = PollResult.notFoundFail 10
    ∧ waitForResource
        (fun i => if i < 4 then CheckOutcome.notFound else (CheckOutcome.otherError : CheckOutcome ℕ)) 10
        = PollResult.otherFail 5 :=
  ⟨(claim_C4 (fun i => if i < 2 then CheckOutcome.notFound else CheckOutcome.ok 7)).1
      2 7 (by decide) (by decide) (by decide),
   (claim_C4 (fun _ => (CheckOutcome.notFound : CheckOutcome ℕ))).2.1 (by decide),
   (claim_C4 (fun i => if i < 4 then CheckOutcome.notFound
        else (CheckOutcome.otherError : CheckOutcome ℕ))).2.2 4 (by decide) (by decide) (by decide)⟩

theorem filter_ne_length {l : List Str} (hnd : l.Nodup) {t : Str} (ht : t ∈ l) :
    (l.filter fun k => k ≠ t).length = l.length - 1 := by
  induction l with
  | nil => cases ht
  | cons x xs ih =>
      rcases List.mem_cons.mp ht with heq | hmem
      · subst heq
        have hxnot : t ∉ xs := (List.nodup_cons.mp hnd).1
        have hall : xs.filter (fun k => k ≠ t) = xs := by
          apply List.filter_eq_self.mpr
          intro a ha
          exact decide_eq_true (fun h => hxnot (h ▸ ha))
        rw [List.filter_cons, if_neg (by simp), hall]
        simp
      · have hx : x ≠ t := by
          rintro rfl
          exact (List.nodup_cons.mp hnd).1 hmem
        have hih := ih (List.nodup_cons.mp hnd).2 hmem
        have hpos : 0 < xs.length := List.length_pos.mpr (List.ne_nil_of_mem hmem)
        simp only [List.filter_cons, List.length_cons]
        rw [if_pos (by simp [hx])]
        simp only [List.length_cons]
        omega

/-- C1: for a plan over `n` distinct keyword texts, when cross-negatives are
not skipped each ad group's negatives list excludes its own keyword, has
length `n-1`, and contains every other keyword text, so the negatives sum to
`n*(n-1)`; when negatives are skipped every negatives list is empty and the
sum is `0`. -/
theorem claim_C1 (kps : List KeywordPlan) (hnd : (kps.map KeywordPlan.text).Nodup) :
    (∀ ag ∈ buildAdGroupPlans kps false,
        ag.keyword.text ∉ ag.negatives
        ∧ ag.negatives.length = kps.length - 1
        ∧ ∀ t ∈ kps.map KeywordPlan.text, t ≠ ag.keyword.text → t ∈ ag.negatives)
    ∧ (((buildAdGroupPlans kps false).map fun ag => ag.negatives.length).sum
        = kps.length * (kps.length - 1))
    ∧ (∀ ag ∈ buildAdGroupPlans kps true, ag.negatives = [])
    ∧ (((buildAdGroupPlans kps true).map fun ag => ag.negatives.length).sum = 0) := by
  refine ⟨?_, ?_, ?_, ?_⟩
  · intro ag hag
    simp only [buildAdGroupPlans, List.mem_map] at hag
    obtain ⟨kp, hkp, rfl⟩ := hag
    refine ⟨?_, ?_, ?_⟩
    · simp [List.mem_filter]
    · show ((kps.map KeywordPlan.text).filter fun k => k ≠ kp.text).length = kps.length - 1
      rw [filter_ne_length hnd (List.mem_map_of_mem _ hkp), List.length_map]
    · intro t ht hne
      show t ∈ (kps.map KeywordPlan.text).filter fun k => k ≠ kp.text
      exact List.mem_filter.mpr ⟨ht, by simp [hne]⟩
  · have hmap : ((buildAdGroupPlans kps false).map fun ag => ag.negatives.length)
        = kps.map fun kp =>
            ((kps.map KeywordPlan.text).filter fun k => k ≠ kp.text).length := by
      simp [buildAdGroupPlans, List.map_map, Function.comp]
    rw [hmap]
    have hconst : ∀ x ∈ kps.map (fun kp =>
        ((kps.map KeywordPlan.text).filter fun k => k ≠ kp.text).length),
        x = kps.length - 1 := by
      intro x hx
      simp only [List.mem_map] at hx
      obtain ⟨kp, hkp, rfl⟩ := hx
      rw [filter_ne_length hnd (List.mem_map_of_mem _ hkp), List.length_map]
    rw [List.eq_replicate_of_mem hconst, List.sum_replicate, smul_eq_mul, List.length_map]
  · intro ag hag
    simp only [buildAdGroupPlans, List.mem_map] at hag
    obtain ⟨kp, hkp, rfl⟩ := hag
    simp
  · refine List.sum_eq_zero ?_
    intro x hx
    simp only [buildAdGroupPlans, List.map_map, List.mem_map, Function.comp] at hx
    obtain ⟨kp, _, hx⟩ := hx
    simp [← hx]

theorem claim_C1_witness :
    (∀ ag ∈ buildAdGroupPlans
        [⟨str "a", 1, str "USD", 1, 1, [1]⟩, ⟨str "b", 1, str "USD", 1, 1, [1]⟩,
         ⟨str "c", 1, str "USD", 1, 1, [1]⟩] false,
        ag.keyword.text ∉ ag.negatives
        ∧ ag.negatives.length = 2
        ∧ ∀ t ∈ [str "a", str "b", str "c"], t ≠ ag.keyword.text → t ∈ ag.negatives)
    ∧ ((buildAdGroupPlans
        [⟨str "a", 1, str "USD", 1, 1, [1]⟩, ⟨str "b", 1, str "USD", 1, 1, [1]⟩,
         ⟨str "c", 1, str "USD", 1, 1, [1]⟩] false).map fun ag => ag.negatives.length).sum
        = 3 * 2 :=
  ⟨(claim_C1 [⟨str "a", 1, str "USD", 1, 1, [1]⟩, ⟨str "b", 1, str "USD", 1, 1, [1]⟩,
      ⟨str "c", 1, str "USD", 1, 1, [1]⟩] (by decide)).1,
   (claim_C1 [⟨str "a", 1, str "USD", 1, 1, [1]⟩, ⟨str "b", 1, str "USD", 1, 1, [1]⟩,
      ⟨str "c", 1, str "USD", 1, 1, [1]⟩] (by decide)).2.1⟩

theorem pyTitleAux_length (b : Bool) (s : Str) : (pyTitleAux b s).length = s.length := by
  induction s generalizing b with
  | nil => rfl
  | cons c rest ih =>
      unfold pyTitleAux
      split <;> simp [ih]

/-- C5 (amended): every expand ad-group name is `"Exact - "` followed by the
title-cased keyword, truncated to its first 197 characters plus `"..."` (so
exactly 200 characters) when the full name exceeds 200; a *brand* ad-group
name is the same string truncated by a plain slice to its first 200
characters, with no `"..."` suffix; in both builders no generated name
exceeds 200 characters. -/
theorem claim_C5_amended (kw : Str) :
    (str "Exact - " ++ pyTitle kw).length = 8 + kw.length
    ∧ ((str "Exact - " ++ pyTitle kw).length > 200 →
        mkAgNameExpand kw = (str "Exact - " ++ pyTitle kw).take 197 ++ str "..."
        ∧ (mkAgNameExpand kw).length = 200)
    ∧ (mkAgNameExpand kw).length ≤ 200
    ∧ mkAgNameBrand kw = (str "Exact - " ++ pyTitle kw).take 200
    ∧ (mkAgNameBrand kw).length ≤ 200 := by
  have hlen : (str "Exact - " ++ pyTitle kw).length = 8 + kw.length := by
    rw [List.length_append]
    rw [pyTitle, pyTitleAux_length]
    rfl
  refine ⟨hlen, ?_, ?_, rfl, ?_⟩
  · intro hgt
    have hexp : mkAgNameExpand kw = (str "Exact - " ++ pyTitle kw).take 197 ++ str "..." := by
      unfold mkAgNameExpand
      rw [if_pos hgt]
    refine ⟨hexp, ?_⟩
    rw [hexp, List.length_append, List.length_take]
    show min 197 (str "Exact - " ++ pyTitle kw).length + 3 = 200
    omega
  · unfold mkAgNameExpand
    split
    · rw [List.length_append, List.length_take]
      show min 197 (str "Exact - " ++ pyTitle kw).length + 3 ≤ 200
      omega
    · omega
  · unfold mkAgNameBrand
    rw [List.length_take]
    omega

set_option maxRecDepth 8000 in
theorem claim_C5_counterexample :
    (mkAgNameBrand (List.replicate 250 'a')).length = 200
    ∧ (mkAgNameBrand (List.replicate 250 'a')).drop 197 ≠ str "..." := by
  exact ⟨by decide, by decide⟩

set_option maxRecDepth 8000 in
theorem claim_C5_witness :
    mkAgNameExpand (List.replicate 250 'a')
        = (str "Exact - " ++ pyTitle (List.replicate 250 'a')).take 197 ++ str "..."
    ∧ (mkAgNameExpand (List.replicate 250 'a')).length = 200 :=
  (claim_C5_amended (List.replicate 250 'a')).2.1 (by decide)

theorem claim_C3_counterexample :
    (parseName (withCountry ⟨str "A", str "US", str "Generic", str "EM", str ""⟩ (str "ca"))).isSome
        = true
    ∧ (parseName (withCountry ⟨str "A", str "US", str "Generic", str "EM", str ""⟩
        (str "ca"))).map CampaignNameParts.country ≠ some (str "ca") :=
  ⟨by decide, by decide⟩

/-- C3 (amended): for a `CampaignNameParts` whose `match_type` is one of the
canonical `"EM"`/`"BM"` tokens, and a country string `c` that contains no
`'-'` character and equals its own stripped upper-cased form (and an app name
and campaign type free of `'-'`), parsing the name produced by
`with_country(x, c)` succeeds and yields country `c` and the match type of
`x` (the long-form spelling `"Exact Match"`/`"Broad Match"` parsing back to
`"EM"`/`"BM"`).  Unrestricted, the claim fails: `parse` upper-cases the
country segment, and `" - "` inside the app name or country shifts the
segments. -/
theorem claim_C3_amended (x : CampaignNameParts) (c : Str)
    (hmt : x.match_type = str "EM" ∨ x.match_type = str "BM")
    (hApp : '-' ∉ x.app_name) (hType : '-' ∉ x.campaign_type) (hc : '-' ∉ c)
    (hstrip : pyStrip c = c) (hupper : pyUpper c = c) :
    parseName (withCountry x c) =
      some ⟨pyStrip x.app_name, c, pyStrip x.campaign_type, x.match_type,
            withCountry x c⟩ := by
  rcases hmt with hEM | hBM
  · have hw : withCountry x c
        = x.app_name ++ sepL ++ (c ++ sepL ++ (x.campaign_type ++ sepL ++ str "Exact Match")) := by
      unfold withCountry
      rw [hEM, if_pos rfl]
      simp [List.append_assoc]
    have hsplit : splitDash (withCountry x c)
        = [x.app_name, c, x.campaign_type, str "Exact Match"] := by
      rw [hw, splitDash_append _ hApp, splitDash_append _ hc, splitDash_append _ hType,
          splitDash_of_no_dash (by decide)]
    have h := parseName_four_em x.app_name c x.campaign_type (withCountry x c) hsplit
    rw [hstrip, hupper, ← hEM] at h
    exact h
  · have hne : x.match_type ≠ str "EM" := by
      rw [hBM]
      decide
    have hw : withCountry x c
        = x.app_name ++ sepL ++ (c ++ sepL ++ (x.campaign_type ++ sepL ++ str "Broad Match")) := by
      unfold withCountry
      rw [if_neg hne]
      simp [List.append_assoc]
    have hsplit : splitDash (withCountry x c)
        = [x.app_name, c, x.campaign_type, str "Broad Match"] := by
      rw [hw, splitDash_append _ hApp, splitDash_append _ hc, splitDash_append _ hType,
          splitDash_of_no_dash (by decide)]
    have h := parseName_four_bm x.app_name c x.campaign_type (withCountry x c) hsplit
    rw [hstrip, hupper, ← hBM] at h
    exact h

theorem claim_C3_witness :
    parseName (withCountry ⟨str "A", str "US", str "Generic", str "EM", str "o"⟩ (str "CA")) =
      some ⟨str "A", str "CA", str "Generic", str "EM",
            withCountry ⟨str "A", str "US", str "Generic", str "EM", str "o"⟩ (str "CA")⟩ := by
  have h := claim_C3_amended ⟨str "A", str "US", str "Generic", str "EM", str "o"⟩ (str "CA")
      (Or.inl rfl) (by decide) (by decide) (by decide) (by decide) (by decide)
  rw [h]
  rfl

theorem execLoop_cons_ok (env : ExecEnv) (i : ℕ) (ag : AdGroupPlan)
    (rest : List AdGroupPlan) (st : ExecState)
    (hag : env.agOk i = true) (hkw : env.kwOk i = true) :
    execLoop env i (ag :: rest) st =
      execLoop env (i + 1) rest
        ⟨st.adGroups + 1, st.keywords + 1,
         st.negatives + negContribution env i ag,
         st.createdIdx ++ [i]⟩ := by
  rw [execLoop]
  rw [if_neg (by simp [hag]), if_neg (by simp [hkw])]

theorem execLoop_all_ok (env : ExecEnv) :
    ∀ (plans : List AdGroupPlan) (i : ℕ) (st : ExecState),
      (∀ d, d < plans.length → env.agOk (i + d) = true ∧ env.kwOk (i + d) = true) →
      execLoop env i plans st =
        .ok ⟨st.adGroups + plans.length, st.keywords + plans.length,
             st.negatives + negSum env i plans,
             st.createdIdx ++ List.range' i plans.length⟩ := by
  intro plans
  induction plans with
  | nil =>
      intro i st _
      obtain ⟨a, b, c, d⟩ := st
      simp [execLoop, negSum, List.range']
  | cons ag rest ih =>
      intro i st hok
      have h0 := hok 0 (by simp)
      rw [Nat.add_zero] at h0
      rw [execLoop_cons_ok env i ag rest st h0.1 h0.2]
      rw [ih (i + 1) _ (fun d hd => by
        have h := hok (d + 1) (by simpa using Nat.succ_lt_succ hd)
        rwa [show i + (d + 1) = i + 1 + d by omega] at h)]
      refine congrArg Except.ok ?_
      rw [ExecState.mk.injEq]
      refine ⟨by simp only [List.length_cons]; omega,
              by simp only [List.length_cons]; omega, ?_, ?_⟩
      · simp only [negSum]
        omega
      · rw [List.length_cons, List.range'_succ]
        simp [List.append_assoc]

theorem execLoop_abort (env : ExecEnv) :
    ∀ (pre : List AdGroupPlan) (i : ℕ) (st : ExecState) (ag : AdGroupPlan)
      (rest : List AdGroupPlan),
      (∀ d, d < pre.length → env.agOk (i + d) = true ∧ env.kwOk (i + d) = true) →
      (env.agOk (i + pre.length) = false →
        execLoop env i (pre ++ ag :: rest) st =
          .error ⟨st.adGroups + pre.length, st.keywords + pre.length,
                  st.negatives + negSum env i pre,
                  st.createdIdx ++ List.range' i pre.length⟩)
      ∧ (env.agOk (i + pre.length) = true → env.kwOk (i + pre.length) = false →
        execLoop env i (pre ++ ag :: rest) st =
          .error ⟨st.adGroups + pre.length + 1, st.keywords + pre.length,
                  st.negatives + negSum env i pre,
                  st.createdIdx ++ List.range' i (pre.length + 1)⟩) := by
  intro pre
  induction pre with
  | nil =>
      intro i st ag rest _
      obtain ⟨a, b, c, d⟩ := st
      constructor
      · intro hfail
        simp only [List.length_nil, Nat.add_zero] at hfail
        rw [List.nil_append, execLoop, if_pos hfail]
        simp [negSum, List.range']
      · intro hag hkw
        simp only [List.length_nil, Nat.add_zero] at hag hkw
        rw [List.nil_append, execLoop, if_neg (by simp [hag]), if_pos hkw]
        simp [negSum, List.range']
  | cons p pre' ih =>
      intro i st ag rest hok
      have h0 := hok 0 (by simp)
      rw [Nat.add_zero] at h0
      have hok' : ∀ d, d < pre'.length →
          env.agOk (i + 1 + d) = true ∧ env.kwOk (i + 1 + d) = true := by
        intro d hd
        have h := hok (d + 1) (by simpa using Nat.succ_lt_succ hd)
        rwa [show i + (d + 1) = i + 1 + d by omega] at h
      have hlen : i + (p :: pre').length = i + 1 + pre'.length := by
        simp only [List.length_cons]
        omega
      constructor
      · intro hfail
        rw [hlen] at hfail
        rw [List.cons_append, execLoop_cons_ok env i p (pre' ++ ag :: rest) st h0.1 h0.2]
        rw [(ih (i + 1) _ ag rest hok').1 hfail]
        refine congrArg Except.error ?_
        rw [ExecState.mk.injEq]
        refine ⟨by simp only [List.length_cons]; omega,
                by simp only [List.length_cons]; omega, ?_, ?_⟩
        · simp only [negSum]
          omega
        · rw [List.length_cons, List.range'_succ]
          simp [List.append_assoc]
      · intro hag hkw
        rw [hlen] at hag hkw
        rw [List.cons_append, execLoop_cons_ok env i p (pre' ++ ag :: rest) st h0.1 h0.2]
        rw [(ih (i + 1) _ ag rest hok').2 hag hkw]
        refine congrArg Except.error ?_
        rw [ExecState.mk.injEq]
        refine ⟨by simp only [List.length_cons]; omega,
                by simp only [List.length_cons]; omega, ?_, ?_⟩
        · simp only [negSum]
          omega
        · rw [List.length_cons]
          simp [List.append_assoc, List.range'_succ]

/-- C6: in the ad-group loop, an API error creating one ad group's negative
keywords is caught and the loop continues (with every ad-group and keyword
create succeeding the whole plan completes, whatever the negative-keyword
outcomes); an API error creating the ad group itself, or its primary
keyword, aborts all remaining ad groups, and the state carried out of the
failed run is exactly the state reached before the failure — counters and
created indices reflect only the earlier iterations (no rollback). -/
theorem claim_C6 (env : ExecEnv) (plans : List AdGroupPlan) :
    ((∀ i, i < plans.length → env.agOk i = true ∧ env.kwOk i = true) →
        execPlan env plans =
          .ok ⟨plans.length, plans.length, negSum env 0 plans, List.range plans.length⟩)
    ∧ (∀ j, j < plans.length →
        (∀ i, i < j → env.agOk i = true ∧ env.kwOk i = true) → env.agOk j = false →
        execPlan env plans =
          .error ⟨j, j, negSum env 0 (plans.take j), List.range j⟩)
    ∧ (∀ j, j < plans.length →
        (∀ i, i < j → env.agOk i = true ∧ env.kwOk i = true) →
        env.agOk j = true → env.kwOk j = false →
        execPlan env plans =
          .error ⟨j + 1, j, negSum env 0 (plans.take j), List.range (j + 1)⟩) := by
  refine ⟨?_, ?_, ?_⟩
  · intro hok
    unfold execPlan ExecState.init
    rw [execLoop_all_ok env plans 0 _ (fun d hd => by simpa using hok d hd)]
    simp [List.range_eq_range']
  · intro j hj hok hfail
    unfold execPlan ExecState.init
    have htake : (plans.take j).length = j := by
      rw [List.length_take]
      omega
    have hdecomp : plans = plans.take j ++ plans[j] :: plans.drop (j + 1) := by
      rw [← List.drop_eq_getElem_cons hj, List.take_append_drop]
    nth_rewrite 1 [hdecomp]
    have h := (execLoop_abort env (plans.take j) 0 ⟨0, 0, 0, []⟩ plans[j] (plans.drop (j + 1))
        (fun d hd => by simpa using hok d (by omega : d < j))).1
      (by rw [htake, Nat.zero_add]; exact hfail)
    rw [h, htake]
    simp [List.range_eq_range']
  · intro j hj hok hag hkw
    unfold execPlan ExecState.init
    have htake : (plans.take j).length = j := by
      rw [List.length_take]
      omega
    have hdecomp : plans = plans.take j ++ plans[j] :: plans.drop (j + 1) := by
      rw [← List.drop_eq_getElem_cons hj, List.take_append_drop]
    nth_rewrite 1 [hdecomp]
    have h := (execLoop_abort env (plans.take j) 0 ⟨0, 0, 0, []⟩ plans[j] (plans.drop (j + 1))
        (fun d hd => by simpa using hok d (by omega : d < j))).2
      (by rw [htake, Nat.zero_add]; exact hag)
      (by rw [htake, Nat.zero_add]; exact hkw)
    rw [h, htake]
    simp [List.range_eq_range']

theorem claim_C6_witness :
    execPlan ⟨fun _ => true, fun _ => true, fun _ => none⟩
        [⟨str "g1", ⟨str "a", 1, str "USD", 1, 1, []⟩, [str "b"]⟩,
         ⟨str "g2", ⟨str "b", 1, str "USD", 1, 1, []⟩, []⟩] =
      .ok ⟨2, 2,
           negSum ⟨fun _ => true, fun _ => true, fun _ => none⟩ 0
             [⟨str "g1", ⟨str "a", 1, str "USD", 1, 1, []⟩, [str "b"]⟩,
              ⟨str "g2", ⟨str "b", 1, str "USD", 1, 1, []⟩, []⟩],
           List.range 2⟩ :=
  (claim_C6 ⟨fun _ => true, fun _ => true, fun _ => none⟩
      [⟨str "g1", ⟨str "a", 1, str "USD", 1, 1, []⟩, [str "b"]⟩,
       ⟨str "g2", ⟨str "b", 1, str "USD", 1, 1, []⟩, []⟩]).1 (by decide)

theorem foldl_no_cn {α : Type} (f : List Str → α → List Str)
    (hf : ∀ (acc : List Str) (a : α), str "CN" ∉ acc → str "CN" ∉ f acc a) :
    ∀ (l : List α) (acc : List Str), str "CN" ∉ acc → str "CN" ∉ l.foldl f acc := by
  intro l
  induction l with
  | nil => intro acc h; exact h
  | cons a rest ih =>
      intro acc h
      rw [List.foldl_cons]
      exact ih _ (hf acc a h)

theorem getAllCountries_no_cn : str "CN" ∉ getAllCountries false := by
  intro hmem
  rw [getAllCountries] at hmem
  have h := (List.mem_filter.mp hmem).2
  simp at h

theorem presetByIdx_no_cn (idx : ℕ) : str "CN" ∉ presetByIdx idx false := by
  unfold presetByIdx
  split
  · exact getAllCountries_no_cn
  · split
    · decide
    · split
      · decide
      · split
        · decide
        · split
          · decide
          · decide

theorem presetLookup_no_cn (key : Str) (cs : List Str) (h : presetLookup key = some cs) :
    str "CN" ∉ cs := by
  unfold presetLookup at h
  split at h
  · injection h with h; rw [← h]; decide
  · split at h
    · injection h with h; rw [← h]; decide
    · split at h
      · injection h with h; rw [← h]; decide
      · split at h
        · injection h with h; rw [← h]; decide
        · split at h
          · injection h with h; rw [← h]; decide
          · simp at h

theorem commaPath_no_cn (selection : Str) :
    str "CN" ∉ commaPathCountries selection false := by
  unfold commaPathCountries
  apply foldl_no_cn
  · intro acc code hacc
    dsimp only
    split
    · exact hacc
    · split
      · exact hacc
      · split
        next hskip => exact hacc
        next hskip =>
          split
          · exact hacc
          · intro hmem
            rcases List.mem_append.mp hmem with h | h
            · exact hacc h
            · have hco : str "CN" = code := List.mem_singleton.mp h
              exact hskip ⟨List.mem_singleton.mpr hco.symm, rfl⟩
  · simp

theorem selectFallback_no_cn (selection : Str) :
    str "CN" ∉ selectCountriesFallback selection false := by
  unfold selectCountriesFallback
  split
  · exact getAllCountries_no_cn
  · cases hp : presetLookup (pyLower selection) with
    | some cs => exact presetLookup_no_cn _ cs hp
    | none => exact commaPath_no_cn selection

theorem selectCountries_no_cn (intParse : Str → Option ℤ) (reply : Str) :
    str "CN" ∉ selectCountriesInteractive intParse reply false := by
  unfold selectCountriesInteractive
  cases hp : intParse (pyStrip reply) with
  | some n =>
      show str "CN" ∉
        if 0 ≤ n - 1 ∧ n - 1 < 6 then presetByIdx (n - 1).toNat false
        else selectCountriesFallback (pyStrip reply) false
      by_cases hn : 0 ≤ n - 1 ∧ n - 1 < 6
      · rw [if_pos hn]
        exact presetByIdx_no_cn _
      · rw [if_neg hn]
        exact selectFallback_no_cn _
  | none => exact selectFallback_no_cn _

theorem brandTarget_no_cn (countries : List Str) :
    str "CN" ∉ brandTargetCountries countries false := by
  unfold brandTargetCountries
  apply foldl_no_cn
  · intro acc code hacc
    dsimp only
    split
    · exact hacc
    · split
      next hskip => exact hacc
      next hskip =>
        intro hmem
        rcases List.mem_append.mp hmem with h | h
        · exact hacc h
        · have hco : str "CN" = pyUpper code := List.mem_singleton.mp h
          exact hskip ⟨List.mem_singleton.mpr hco.symm, rfl⟩
  · simp

/-- C10: with `include_china` disabled, the country code `"CN"` never appears
in any target-country list built by the brand command: `get_all_countries`
omits it, the `--country` argument path skips it (with a warning), and every
branch of the interactive selection — numeric preset, `"all"`, named preset,
or explicit comma-separated codes — skips it, for every possible reply and
every behaviour of the `int(...)` parse. -/
theorem claim_C10 :
    str "CN" ∉ getAllCountries false
    ∧ (∀ countries : List Str, str "CN" ∉ brandTargetCountries countries false)
    ∧ (∀ (intParse : Str → Option ℤ) (reply : Str),
        str "CN" ∉ selectCountriesInteractive intParse reply false) :=
  ⟨getAllCountries_no_cn, brandTarget_no_cn, selectCountries_no_cn⟩

end SearchAdsCli
